import Mathlib

/-!
Shallow embedding of the Online_Bookstore repository (src/models.py, src/app.py).

The persistent state is the SQLite database: tables `book`, `customer`,
`orders`, `order_item` (table `category` is read-only for every operation
verified here and is omitted from the state).  Python floats (`price`,
`sale_price`, `total_amount`) are modelled as rationals; SQL `INT` columns as
`Int`; AUTO_INCREMENT primary keys are modelled by taking the successor of the
largest id present.  The order-placement handler `create_order` runs inside a
SQLAlchemy session: on any exception it calls `db.session.rollback()`, so the
committed database either receives the whole order or nothing; the embedding
returns the original state on the error path and the fully updated state on
commit, with the per-item mutations threaded through the loop exactly as the
source performs them.
-/

namespace Bookstore

/-- `class Book(db.Model)` in src/models.py (columns used by the order flow;
`isbn`, `publisher`, `pub_date`, `pages`, `language`, `image_url`,
`category_id` play no role in any verified operation). -/
structure Book where
  id : Nat
  title : String
  author : String
  price : ℚ
  sale_price : ℚ
  stock : Int
  sales_count : Int
  deriving Repr, DecidableEq

/-- `class Customer(UserMixin, db.Model)` in src/models.py. -/
structure Customer where
  id : Nat
  username : String
  email : Option String
  password_hash : String
  deriving Repr, DecidableEq

/-- `class Order(db.Model)` in src/models.py (`orders` table).
`created_at` (a DATETIME filled with `datetime.utcnow`) is modelled as a
natural-number timestamp. -/
structure Order where
  id : Nat
  customer_id : Nat
  total_amount : ℚ
  created_at : Nat
  deriving Repr, DecidableEq

/-- `class OrderItem(db.Model)` in src/models.py (`order_item` table). -/
structure OrderItem where
  id : Nat
  order_id : Nat
  book_id : Nat
  quantity : Int
  price : ℚ
  deriving Repr, DecidableEq

/-- One entry of the JSON cart `request.json.get('items', [])` in
`create_order`: the handler reads `i['id']` and `i['qty']`. -/
structure CartItem where
  id : Nat
  qty : Int
  deriving Repr, DecidableEq

/-- The committed database state. -/
structure DBState where
  books : List Book
  customers : List Customer
  orders : List Order
  orderItems : List OrderItem
  deriving Repr, DecidableEq

/-- Largest order id present (0 when the table is empty): AUTO_INCREMENT. -/
def maxOrderId (orders : List Order) : Nat :=
  orders.foldr (fun o m => max o.id m) 0

/-- The id `db.session.flush()` hands the provisional order in
`create_order`. -/
def nextOrderId (st : DBState) : Nat :=
  maxOrderId st.orders + 1

/-- Largest order-item id present (0 when the table is empty). -/
def maxItemId (its : List OrderItem) : Nat :=
  its.foldr (fun i m => max i.id m) 0

/-- AUTO_INCREMENT ids the `order_item` INSERTs receive at commit. -/
def assignIds : Nat → List OrderItem → List OrderItem
  | _, [] => []
  | n, it :: rest => { it with id := n } :: assignIds (n + 1) rest

/-- Errors `create_order` can raise.  A cart item whose book id has no row
makes `Book.query.get(i['id'])` return `None`, and the subsequent
`book.stock` raises `AttributeError` (modelled as `bookNotFound`); an item
with `book.stock < i['qty']` raises
`Exception(f"{book.title} 库存不足")` (modelled as `insufficientStock` with
that message). -/
inductive OrderError where
  | bookNotFound : OrderError
  | insufficientStock : String → OrderError
  deriving Repr, DecidableEq

/-- `UPDATE book SET ... WHERE id = ?`: replace the row(s) with `b`'s id. -/
def updateBook (books : List Book) (b : Book) : List Book :=
  books.map fun x => if x.id = b.id then b else x

/-- The `for i in items` loop of `create_order` (src/app.py lines 301-315):
look the book up, check stock, decrement `stock`, increment `sales_count`,
accumulate `total`, and record the `OrderItem` row (whose AUTO_INCREMENT id
is assigned later, at commit).  Returns the mutated book table, the running
total, and the order-item rows, or the first exception raised. -/
def processItems (oid : Nat) : List Book → List CartItem →
    Except OrderError (List Book × ℚ × List OrderItem)
  | books, [] => .ok (books, 0, [])
  | books, i :: rest =>
    match books.find? (fun b => b.id = i.id) with
    | none => .error .bookNotFound
    | some book =>
      if book.stock < i.qty then
        .error (.insufficientStock (book.title ++ " 库存不足"))
      else
        match processItems oid
            (updateBook books
              { book with stock := book.stock - i.qty,
                          sales_count := book.sales_count + i.qty }) rest with
        | .error e => .error e
        | .ok (bs, t, its) =>
          .ok (bs, book.sale_price * (i.qty : ℚ) + t,
               ⟨0, oid, book.id, i.qty, book.sale_price⟩ :: its)

/-- `create_order` (src/app.py lines 275-326), acting on the committed
database: insert a provisional order for the logged-in customer, run the item
loop, set `total_amount`, and commit; on any exception roll the whole
transaction back (`db.session.rollback()`), leaving the database as it was.
Returns the new state together with the response: `.ok order.id` for the
success JSON, `.error e` for the 400 response. -/
def createOrder (st : DBState) (cid : Nat) (now : Nat) (items : List CartItem) :
    DBState × Except OrderError Nat :=
  match processItems (nextOrderId st) st.books items with
  | .error e => (st, .error e)
  | .ok (books', total, newItems) =>
    ({ books := books',
       customers := st.customers,
       orders := st.orders ++ [⟨nextOrderId st, cid, total, now⟩],
       orderItems := st.orderItems ++ assignIds (maxItemId st.orderItems + 1) newItems },
     .ok (nextOrderId st))

/-- `my_orders` (src/app.py lines 328-344):
`Order.query.filter_by(customer_id=current_user.id).order_by(Order.created_at.desc()).all()`. -/
def myOrders (st : DBState) (cid : Nat) : List Order :=
  (st.orders.filter (fun o => o.customer_id = cid)).mergeSort
    (fun a b => decide (b.created_at ≤ a.created_at))

/-- `register` (src/app.py lines 212-238): reject an existing username,
otherwise insert the new customer.  Password hashing (werkzeug) is external;
the stored hash is taken as input. -/
def register (st : DBState) (username pwhash : String) :
    DBState × Bool :=
  if st.customers.any (fun c => c.username = username) then (st, false)
  else
    ({ st with customers :=
        st.customers ++
          [⟨(st.customers.foldr (fun c m => max c.id m) 0) + 1, username, none, pwhash⟩] },
     true)

/-- Total quantity a cart orders for a given book id (a book may appear on
several cart lines). -/
def cartQty (items : List CartItem) (bid : Nat) : Int :=
  ((items.filter (fun i => i.id = bid)).map (fun i => i.qty)).sum

/-- The `sale_price` the catalog currently shows for a book id. -/
def salePriceOf (books : List Book) (bid : Nat) : Option ℚ :=
  (books.find? (fun b => b.id = bid)).map (fun b => b.sale_price)

/-- Sum of `price * quantity` over the order-item rows of one order:
the right-hand side of the spec's total-amount property. -/
def orderTotalFromItems (its : List OrderItem) (oid : Nat) : ℚ :=
  ((its.filter (fun it => it.order_id = oid)).map
    (fun it => it.price * (it.quantity : ℚ))).sum

/-- Referential integrity of the `order_item.order_id` foreign key: every
order-item row points at an existing order row. -/
def wfState (st : DBState) : Prop :=
  ∀ it ∈ st.orderItems, ∃ o ∈ st.orders, it.order_id = o.id

instance : DecidablePred wfState := fun st =>
  decidable_of_iff
    (∀ it ∈ st.orderItems, ∃ o ∈ st.orders, it.order_id = o.id) Iff.rfl

end Bookstore

namespace Bookstore

/-! ### Helper lemmas about the embedded operations -/

theorem mem_le_maxOrderId {orders : List Order} {o : Order} (h : o ∈ orders) :
    o.id ≤ maxOrderId orders := by
  induction orders with
  | nil => cases h
  | cons a as ih =>
    rcases List.mem_cons.mp h with rfl | h
    · exact le_max_left _ _
    · exact le_trans (ih h) (le_max_right _ _)

theorem updateBook_map_id (books : List Book) (c : Book) :
    (updateBook books c).map Book.id = books.map Book.id := by
  unfold updateBook
  rw [List.map_map]
  apply List.map_congr_left
  intro x _
  by_cases h : x.id = c.id <;> simp [Function.comp, h]

theorem find?_updateBook (books : List Book) (c : Book) (x : Nat) :
    (updateBook books c).find? (fun b => b.id = x) =
      (books.find? (fun b => b.id = x)).map (fun b => if b.id = c.id then c else b) := by
  unfold updateBook
  rw [List.find?_map]
  congr 1
  have hp : ((fun b : Book => decide (b.id = x)) ∘ fun b => if b.id = c.id then c else b)
      = fun b : Book => decide (b.id = x) := by
    funext b
    by_cases h : b.id = c.id <;> simp [Function.comp, h]
  rw [hp]

theorem salePriceOf_updateBook {books : List Book} {c c₀ : Book}
    (hfind : books.find? (fun b => b.id = c.id) = some c₀)
    (hsp : c.sale_price = c₀.sale_price) (x : Nat) :
    salePriceOf (updateBook books c) x = salePriceOf books x := by
  unfold salePriceOf
  rw [find?_updateBook]
  cases hy : books.find? (fun b => b.id = x) with
  | none => rfl
  | some y =>
    by_cases h : y.id = c.id
    · have hyx : y.id = x := by simpa using List.find?_some hy
      have hxc : x = c.id := by rw [← hyx, h]
      subst hxc
      rw [hfind] at hy
      cases hy
      simp [h, hsp]
    · simp [h]

/-- Inversion of one step of the `create_order` item loop. -/
theorem processItems_cons_ok {oid : Nat} {books : List Book} {i : CartItem}
    {rest : List CartItem} {bs : List Book} {t : ℚ} {its : List OrderItem}
    (h : processItems oid books (i :: rest) = .ok (bs, t, its)) :
    ∃ book, books.find? (fun b => b.id = i.id) = some book ∧
      ¬ book.stock < i.qty ∧
      ∃ t' its',
        processItems oid
          (updateBook books
            { book with stock := book.stock - i.qty,
                        sales_count := book.sales_count + i.qty }) rest
          = .ok (bs, t', its') ∧
        t = book.sale_price * (i.qty : ℚ) + t' ∧
        its = ⟨0, oid, book.id, i.qty, book.sale_price⟩ :: its' := by
  rw [processItems] at h
  split at h
  · exact Except.noConfusion h
  · rename_i book hfind
    split at h
    · exact Except.noConfusion h
    · rename_i hs
      split at h
      · exact Except.noConfusion h
      · rename_i bs' t' its' hrec
        simp only [Except.ok.injEq, Prod.mk.injEq] at h
        obtain ⟨rfl, rfl, rfl⟩ := h
        exact ⟨book, hfind, hs, t', its', hrec, rfl, rfl⟩

theorem processItems_nil_ok {oid : Nat} {books : List Book} {bs : List Book}
    {t : ℚ} {its : List OrderItem}
    (h : processItems oid books [] = .ok (bs, t, its)) :
    bs = books ∧ t = 0 ∧ its = [] := by
  rw [processItems] at h
  simp only [Except.ok.injEq, Prod.mk.injEq] at h
  exact ⟨h.1.symm, h.2.1.symm, h.2.2.symm⟩

theorem processItems_ok_ids {oid : Nat} {books : List Book}
    {items : List CartItem} {bs : List Book} {t : ℚ} {its : List OrderItem}
    (h : processItems oid books items = .ok (bs, t, its)) :
    bs.map Book.id = books.map Book.id := by
  induction items generalizing books t its with
  | nil => rw [(processItems_nil_ok h).1]
  | cons i rest ih =>
    obtain ⟨book, _, _, t', its', hrec, _, _⟩ := processItems_cons_ok h
    rw [ih hrec, updateBook_map_id]

theorem processItems_ok_total {oid : Nat} {books : List Book}
    {items : List CartItem} {bs : List Book} {t : ℚ} {its : List OrderItem}
    (h : processItems oid books items = .ok (bs, t, its)) :
    t = (its.map (fun it => it.price * (it.quantity : ℚ))).sum := by
  induction items generalizing books t its with
  | nil =>
    obtain ⟨-, rfl, rfl⟩ := processItems_nil_ok h
    simp
  | cons i rest ih =>
    obtain ⟨book, _, _, t', its', hrec, rfl, rfl⟩ := processItems_cons_ok h
    simp [ih hrec]

theorem processItems_ok_length {oid : Nat} {books : List Book}
    {items : List CartItem} {bs : List Book} {t : ℚ} {its : List OrderItem}
    (h : processItems oid books items = .ok (bs, t, its)) :
    its.length = items.length := by
  induction items generalizing books t its with
  | nil => rw [(processItems_nil_ok h).2.2]; rfl
  | cons i rest ih =>
    obtain ⟨book, _, _, t', its', hrec, _, rfl⟩ := processItems_cons_ok h
    simp [ih hrec]

theorem processItems_ok_orderId {oid : Nat} {books : List Book}
    {items : List CartItem} {bs : List Book} {t : ℚ} {its : List OrderItem}
    (h : processItems oid books items = .ok (bs, t, its)) :
    ∀ it ∈ its, it.order_id = oid := by
  induction items generalizing books t its with
  | nil =>
    obtain ⟨-, -, rfl⟩ := processItems_nil_ok h
    intro it hit; cases hit
  | cons i rest ih =>
    obtain ⟨book, _, _, t', its', hrec, _, rfl⟩ := processItems_cons_ok h
    intro it hit
    rcases List.mem_cons.mp hit with rfl | hit
    · rfl
    · exact ih hrec it hit

theorem processItems_ok_found {oid : Nat} {books : List Book}
    {items : List CartItem} {bs : List Book} {t : ℚ} {its : List OrderItem}
    (h : processItems oid books items = .ok (bs, t, its)) :
    ∀ i ∈ items, ∃ b ∈ books, b.id = i.id := by
  induction items generalizing books t its with
  | nil => intro i hi; cases hi
  | cons i rest ih =>
    obtain ⟨book, hfind, _, t', its', hrec, _, _⟩ := processItems_cons_ok h
    intro j hj
    rcases List.mem_cons.mp hj with rfl | hj
    · exact ⟨book, List.mem_of_find?_eq_some hfind, by simpa using List.find?_some hfind⟩
    · obtain ⟨b', hb', hid⟩ := ih hrec j hj
      rcases List.mem_map.mp
        (by rw [← updateBook_map_id books
          { book with stock := book.stock - i.qty,
                      sales_count := book.sales_count + i.qty }]
            exact List.mem_map_of_mem Book.id hb') with ⟨b0, hb0, hb0id⟩
      exact ⟨b0, hb0, by rw [hb0id, hid]⟩

theorem processItems_append_error {oid : Nat} {books : List Book}
    {l1 l2 : List CartItem} {bs : List Book} {t : ℚ} {its : List OrderItem}
    {e : OrderError}
    (h1 : processItems oid books l1 = .ok (bs, t, its))
    (h2 : processItems oid bs l2 = .error e) :
    processItems oid books (l1 ++ l2) = .error e := by
  induction l1 generalizing books t its with
  | nil =>
    obtain ⟨rfl, -, -⟩ := processItems_nil_ok h1
    simpa using h2
  | cons i rest ih =>
    obtain ⟨book, hfind, hs, t', its', hrec, -, -⟩ := processItems_cons_ok h1
    rw [List.cons_append, processItems]
    simp only [hfind, if_neg hs]
    rw [ih hrec]

end Bookstore

namespace Bookstore

theorem cartQty_cons (i : CartItem) (rest : List CartItem) (bid : Nat) :
    cartQty (i :: rest) bid =
      (if i.id = bid then i.qty else 0) + cartQty rest bid := by
  by_cases h : i.id = bid <;> simp [cartQty, List.filter_cons, h]

theorem cartQty_eq_zero {items : List CartItem} {bid : Nat}
    (h : ∀ i ∈ items, ¬ i.id = bid) : cartQty items bid = 0 := by
  have hf : items.filter (fun i => i.id = bid) = [] :=
    List.filter_eq_nil_iff.mpr (by simpa using h)
  simp [cartQty, hf]

theorem processItems_ok_stock_nonneg {oid : Nat} {books : List Book}
    {items : List CartItem} {bs : List Book} {t : ℚ} {its : List OrderItem}
    (h0 : ∀ b ∈ books, 0 ≤ b.stock)
    (h : processItems oid books items = .ok (bs, t, its)) :
    ∀ b ∈ bs, 0 ≤ b.stock := by
  induction items generalizing books t its with
  | nil =>
    obtain ⟨rfl, -, -⟩ := processItems_nil_ok h
    exact h0
  | cons i rest ih =>
    obtain ⟨book, hfind, hs, t', its', hrec, -, -⟩ := processItems_cons_ok h
    refine ih ?_ hrec
    intro b hb
    rcases List.mem_map.mp hb with ⟨x, hx, rfl⟩
    dsimp only
    split
    · show (0 : Int) ≤ book.stock - i.qty
      omega
    · exact h0 x hx

theorem processItems_ok_sales_mono {oid : Nat} {books : List Book}
    {items : List CartItem} {bs : List Book} {t : ℚ} {its : List OrderItem}
    (hq : ∀ i ∈ items, 0 ≤ i.qty)
    (h : processItems oid books items = .ok (bs, t, its)) :
    ∀ b' ∈ bs, ∃ b ∈ books, b'.id = b.id ∧ b.sales_count ≤ b'.sales_count := by
  induction items generalizing books t its with
  | nil =>
    obtain ⟨rfl, -, -⟩ := processItems_nil_ok h
    exact fun b hb => ⟨b, hb, rfl, le_refl _⟩
  | cons i rest ih =>
    obtain ⟨book, hfind, hs, t', its', hrec, -, -⟩ := processItems_cons_ok h
    intro b' hb'
    obtain ⟨y, hy, hyid, hysales⟩ :=
      ih (fun j hj => hq j (List.mem_cons_of_mem i hj)) hrec b' hb'
    rcases List.mem_map.mp hy with ⟨x, hx, rfl⟩
    dsimp only at hyid hysales
    split at hysales
    · rename_i hcond
      rw [if_pos hcond] at hyid
      have hb'id : b'.id = book.id := hyid
      have hxsales : book.sales_count + i.qty ≤ b'.sales_count := hysales
      have hqi : 0 ≤ i.qty := hq i (List.mem_cons_self i rest)
      exact ⟨book, List.mem_of_find?_eq_some hfind, hb'id, by omega⟩
    · rename_i hcond
      rw [if_neg hcond] at hyid
      exact ⟨x, hx, hyid, hysales⟩

theorem processItems_ok_books {oid : Nat} {books : List Book}
    {items : List CartItem} {bs : List Book} {t : ℚ} {its : List OrderItem}
    (hnd : (books.map Book.id).Nodup)
    (h : processItems oid books items = .ok (bs, t, its)) :
    bs = books.map (fun b =>
      { b with stock := b.stock - cartQty items b.id,
               sales_count := b.sales_count + cartQty items b.id }) := by
  induction items generalizing books t its with
  | nil =>
    obtain ⟨rfl, -, -⟩ := processItems_nil_ok h
    symm
    apply List.map_id''
    intro b
    simp [cartQty]
  | cons i rest ih =>
    obtain ⟨book, hfind, hs, t', its', hrec, -, -⟩ := processItems_cons_ok h
    have hbid : book.id = i.id := by simpa using List.find?_some hfind
    have hnd' : (((updateBook books
        { book with stock := book.stock - i.qty,
                    sales_count := book.sales_count + i.qty }).map Book.id)).Nodup := by
      rw [updateBook_map_id]; exact hnd
    rw [ih hnd' hrec]
    unfold updateBook
    rw [List.map_map]
    apply List.map_congr_left
    intro x hx
    dsimp only [Function.comp]
    split
    · rename_i hcond
      have hxb : x = book :=
        List.inj_on_of_nodup_map hnd hx (List.mem_of_find?_eq_some hfind) hcond
      subst hxb
      dsimp only
      rw [cartQty_cons, if_pos hbid.symm]
      simp only [Book.mk.injEq, true_and, eq_self_iff_true]
      omega
    · rename_i hcond
      have hix : ¬ i.id = x.id := fun hh => hcond (hh.symm.trans hbid.symm)
      rw [cartQty_cons, if_neg hix]
      simp

end Bookstore

namespace Bookstore

theorem salePriceOf_step {books : List Book} {book : Book} {i : CartItem}
    (hfind : books.find? (fun b => b.id = i.id) = some book) (x : Nat) :
    salePriceOf (updateBook books
      { book with stock := book.stock - i.qty,
                  sales_count := book.sales_count + i.qty }) x = salePriceOf books x := by
  have hbid : book.id = i.id := by simpa using List.find?_some hfind
  unfold salePriceOf
  rw [find?_updateBook]
  cases hy : books.find? (fun b => b.id = x) with
  | none => rfl
  | some y =>
    simp only [Option.map_some']
    split
    · rename_i hcond
      have h1 : y.id = x := by simpa using List.find?_some hy
      have hx : x = i.id := h1.symm.trans (hcond.trans hbid)
      subst hx
      rw [hfind] at hy
      cases hy
      rfl
    · rfl

theorem processItems_ok_price {oid : Nat} {books : List Book}
    {items : List CartItem} {bs : List Book} {t : ℚ} {its : List OrderItem}
    (h : processItems oid books items = .ok (bs, t, its)) :
    ∀ it ∈ its, salePriceOf books it.book_id = some it.price ∧
      ∃ i ∈ items, i.id = it.book_id ∧ i.qty = it.quantity := by
  induction items generalizing books t its with
  | nil =>
    obtain ⟨-, -, rfl⟩ := processItems_nil_ok h
    intro it hit
    cases hit
  | cons i rest ih =>
    obtain ⟨book, hfind, hs, t', its', hrec, -, rfl⟩ := processItems_cons_ok h
    have hbid : book.id = i.id := by simpa using List.find?_some hfind
    intro it hit
    rcases List.mem_cons.mp hit with rfl | hit
    · refine ⟨?_, i, List.mem_cons_self i rest, hbid.symm, rfl⟩
      show salePriceOf books book.id = some book.sale_price
      unfold salePriceOf
      have hpred : (fun b : Book => decide (b.id = book.id))
          = fun b : Book => decide (b.id = i.id) := by
        funext b
        rw [hbid]
      rw [hpred, hfind]
      rfl
    · obtain ⟨hsp, j, hj, hjid, hjq⟩ := ih hrec it hit
      refine ⟨?_, j, List.mem_cons_of_mem i hj, hjid, hjq⟩
      rw [← salePriceOf_step hfind it.book_id]
      exact hsp

theorem assignIds_mem {n : Nat} {its : List OrderItem} {it' : OrderItem}
    (h : it' ∈ assignIds n its) :
    ∃ it ∈ its, it'.order_id = it.order_id ∧ it'.book_id = it.book_id ∧
      it'.quantity = it.quantity ∧ it'.price = it.price := by
  induction its generalizing n with
  | nil => cases h
  | cons a as ih =>
    rcases List.mem_cons.mp h with rfl | h
    · exact ⟨a, List.mem_cons_self a as, rfl, rfl, rfl, rfl⟩
    · obtain ⟨it, hit, h1, h2, h3, h4⟩ := ih h
      exact ⟨it, List.mem_cons_of_mem a hit, h1, h2, h3, h4⟩

theorem assignIds_filter_map {β : Type} (p : OrderItem → Bool) (g : OrderItem → β)
    (hp : ∀ it n, p { it with id := n } = p it)
    (hg : ∀ it n, g { it with id := n } = g it) :
    ∀ (n : Nat) (its : List OrderItem),
      ((assignIds n its).filter p).map g = (its.filter p).map g := by
  intro n its
  induction its generalizing n with
  | nil => rfl
  | cons a as ih =>
    simp only [assignIds, List.filter_cons, hp a n]
    cases hpa : p a
    · simp [hpa, ih (n + 1)]
    · simp [hpa, hg a n, ih (n + 1)]

end Bookstore

namespace Bookstore

/-- Inversion of a committed (successful) `create_order`. -/
theorem createOrder_ok_inv {st : DBState} {cid now : Nat} {items : List CartItem}
    {oid : Nat}
    (h : (createOrder st cid now items).2 = .ok oid) :
    oid = nextOrderId st ∧
    ∃ bs t its, processItems (nextOrderId st) st.books items = .ok (bs, t, its) ∧
      (createOrder st cid now items).1 =
        { books := bs,
          customers := st.customers,
          orders := st.orders ++ [⟨nextOrderId st, cid, t, now⟩],
          orderItems := st.orderItems ++ assignIds (maxItemId st.orderItems + 1) its } := by
  unfold createOrder at h ⊢
  cases hp : processItems (nextOrderId st) st.books items with
  | error e => rw [hp] at h; exact Except.noConfusion h
  | ok triple =>
    obtain ⟨bs, t, its⟩ := triple
    rw [hp] at h
    simp only [Except.ok.injEq] at h
    subst h
    exact ⟨rfl, bs, t, its, rfl, rfl⟩

/-- A failing `create_order` responds with the error and leaves every table
as it was (rollback). -/
theorem createOrder_error_inv {st : DBState} {cid now : Nat}
    {items : List CartItem} {e : OrderError}
    (h : (createOrder st cid now items).2 = .error e) :
    (createOrder st cid now items).1 = st := by
  unfold createOrder at h ⊢
  cases hp : processItems (nextOrderId st) st.books items with
  | error e' => rfl
  | ok triple =>
    obtain ⟨bs, t, its⟩ := triple
    rw [hp] at h
    exact Except.noConfusion h

theorem find?_orders_append_new {orders : List Order} {o : Order}
    (hgt : ∀ o' ∈ orders, o'.id < o.id) :
    (orders ++ [o]).find? (fun x => x.id = o.id) = some o := by
  rw [List.find?_append]
  have hnone : orders.find? (fun x => x.id = o.id) = none :=
    List.find?_eq_none.mpr (by
      intro x hx
      simpa using Nat.ne_of_lt (hgt x hx))
  rw [hnone]
  simp [List.find?]

/-- In a state with intact `order_id` foreign keys, no existing order-item
row carries the id the next order will get. -/
theorem old_items_not_new {st : DBState} (hwf : wfState st) :
    ∀ it ∈ st.orderItems, ¬ it.order_id = nextOrderId st := by
  intro it hit heq
  obtain ⟨o, ho, hid⟩ := hwf it hit
  have := mem_le_maxOrderId ho
  rw [heq] at hid
  unfold nextOrderId at hid
  omega

end Bookstore

namespace Bookstore

/-- Additional step lemma: the loop never changes any book's `sale_price`. -/
theorem processItems_ok_salePrice {oid : Nat} {books : List Book}
    {items : List CartItem} {bs : List Book} {t : ℚ} {its : List OrderItem}
    (h : processItems oid books items = .ok (bs, t, its)) :
    ∀ x, salePriceOf bs x = salePriceOf books x := by
  induction items generalizing books t its with
  | nil =>
    obtain ⟨rfl, -, -⟩ := processItems_nil_ok h
    exact fun _ => rfl
  | cons i rest ih =>
    obtain ⟨book, hfind, hs, t', its', hrec, -, -⟩ := processItems_cons_ok h
    intro x
    exact (ih hrec x).trans (salePriceOf_step hfind x)

/-- Any `create_order` call only ever appends to the `order_item` table. -/
theorem createOrder_orderItems_extend (st : DBState) (cid now : Nat)
    (items : List CartItem) :
    ∃ tail, (createOrder st cid now items).1.orderItems = st.orderItems ++ tail := by
  unfold createOrder
  cases hp : processItems (nextOrderId st) st.books items with
  | error e => exact ⟨[], (List.append_nil _).symm⟩
  | ok triple =>
    obtain ⟨bs, t, its⟩ := triple
    exact ⟨assignIds (maxItemId st.orderItems + 1) its, rfl⟩

/-- Concrete catalog rows used to witness the theorems on explicit inputs. -/
def bookA : Book := ⟨1, "A", "a", 10, 8, 5, 7⟩

def bookB : Book := ⟨2, "B", "b", 20, 15, 2, 3⟩

/-- Concrete database: two books, one customer, no orders yet. -/
def sampleSt : DBState := ⟨[bookA, bookB], [⟨1, "u", none, "h"⟩], [], []⟩

/-- C1: if processing any cart item fails (a missing book id or a quantity
above the available stock), the whole order placement fails and afterwards
every table is exactly as before the attempt: no book's stock or sales count
has moved and no order or order-item row of this attempt exists, even when
earlier items of the same cart had already been mutated (all-or-nothing
rollback). -/
theorem createOrder_failure_is_atomic (st : DBState) (cid now : Nat)
    (items : List CartItem) (e : OrderError)
    (h : (createOrder st cid now items).2 = .error e) :
    (createOrder st cid now items).1.books = st.books ∧
    (createOrder st cid now items).1.orders = st.orders ∧
    (createOrder st cid now items).1.orderItems = st.orderItems ∧
    (createOrder st cid now items).1.customers = st.customers := by
  rw [createOrder_error_inv h]
  exact ⟨rfl, rfl, rfl, rfl⟩

theorem createOrder_failure_is_atomic_witness :
    (createOrder sampleSt 1 100 [⟨1, 2⟩, ⟨2, 5⟩]).2
        = .error (.insufficientStock "B 库存不足") ∧
    (createOrder sampleSt 1 100 [⟨1, 2⟩, ⟨2, 5⟩]).1.books = sampleSt.books ∧
    (createOrder sampleSt 1 100 [⟨1, 2⟩, ⟨2, 5⟩]).1.orders = sampleSt.orders ∧
    (createOrder sampleSt 1 100 [⟨1, 2⟩, ⟨2, 5⟩]).1.orderItems = sampleSt.orderItems ∧
    (createOrder sampleSt 1 100 [⟨1, 2⟩, ⟨2, 5⟩]).1.customers = sampleSt.customers := by
  have h : (createOrder sampleSt 1 100 [⟨1, 2⟩, ⟨2, 5⟩]).2
      = .error (.insufficientStock "B 库存不足") := by
    norm_num [createOrder, processItems, sampleSt, bookA, bookB, updateBook,
      nextOrderId, maxOrderId]
    decide
  obtain ⟨h1, h2, h3, h4⟩ :=
    createOrder_failure_is_atomic sampleSt 1 100 [⟨1, 2⟩, ⟨2, 5⟩]
      (.insufficientStock "B 库存不足") h
  exact ⟨h, h1, h2, h3, h4⟩

/-- C4: when, walking the cart in submitted order, an item's requested
quantity exceeds the referenced book's current stock, `create_order` fails
with the insufficient-stock error whose message carries that book's title,
and the whole transaction is rolled back (the returned state is the input
state). -/
theorem createOrder_insufficient_stock (st : DBState) (cid now : Nat)
    (pre post : List CartItem) (i : CartItem) {bs : List Book} {t : ℚ}
    {its : List OrderItem} {b : Book}
    (hpre : processItems (nextOrderId st) st.books pre = .ok (bs, t, its))
    (hfind : bs.find? (fun x => x.id = i.id) = some b)
    (hstock : b.stock < i.qty) :
    createOrder st cid now (pre ++ i :: post) =
      (st, .error (.insufficientStock (b.title ++ " 库存不足"))) := by
  have herr : processItems (nextOrderId st) bs (i :: post)
      = .error (.insufficientStock (b.title ++ " 库存不足")) := by
    rw [processItems]
    simp only [hfind]
    rw [if_pos hstock]
  unfold createOrder
  rw [processItems_append_error hpre herr]

theorem createOrder_insufficient_stock_witness :
    createOrder sampleSt 1 100 ([⟨1, 2⟩] ++ ⟨2, 5⟩ :: []) =
      (sampleSt, .error (.insufficientStock (bookB.title ++ " 库存不足"))) := by
  have hpre : processItems (nextOrderId sampleSt) sampleSt.books [⟨1, 2⟩]
      = .ok ([⟨1, "A", "a", 10, 8, 3, 9⟩, bookB], 16, [⟨0, 1, 1, 2, 8⟩]) := by
    norm_num [processItems, sampleSt, bookA, bookB, updateBook, nextOrderId, maxOrderId]
  exact createOrder_insufficient_stock sampleSt 1 100 [⟨1, 2⟩] [] ⟨2, 5⟩
    hpre (by decide) (by decide)

/-- C5: an order placement whose cart references a book id with no row in the
book table fails and the whole transaction is rolled back; when the items
before it processed fine (so the loop reaches it), the failure is the
missing-book error (`Book.query.get` returns `None` and the handler's
attribute access raises). -/
theorem createOrder_book_not_found (st : DBState) (cid now : Nat) :
    (∀ (pre post : List CartItem) (i : CartItem) {bs : List Book} {t : ℚ}
        {its : List OrderItem},
      processItems (nextOrderId st) st.books pre = .ok (bs, t, its) →
      (∀ b ∈ st.books, ¬ b.id = i.id) →
      createOrder st cid now (pre ++ i :: post) = (st, .error .bookNotFound)) ∧
    (∀ items : List CartItem,
      (∃ i ∈ items, ∀ b ∈ st.books, ¬ b.id = i.id) →
      ∃ e, createOrder st cid now items = (st, .error e)) := by
  constructor
  · intro pre post i bs t its hpre habs
    have hnone : bs.find? (fun x => x.id = i.id) = none := by
      apply List.find?_eq_none.mpr
      intro b hb
      have hmem : b.id ∈ st.books.map Book.id := by
        rw [← processItems_ok_ids hpre]
        exact List.mem_map_of_mem Book.id hb
      rcases List.mem_map.mp hmem with ⟨b0, hb0, hb0id⟩
      simpa [← hb0id] using habs b0 hb0
    have herr : processItems (nextOrderId st) bs (i :: post)
        = .error .bookNotFound := by
      rw [processItems]
      simp only [hnone]
    unfold createOrder
    rw [processItems_append_error hpre herr]
  · intro items hitems
    cases hp : processItems (nextOrderId st) st.books items with
    | error e =>
      refine ⟨e, ?_⟩
      unfold createOrder
      rw [hp]
    | ok triple =>
      exfalso
      obtain ⟨bs, t, its⟩ := triple
      obtain ⟨i, hi, habs⟩ := hitems
      obtain ⟨b, hb, hbid⟩ := processItems_ok_found hp i hi
      exact habs b hb hbid

theorem createOrder_book_not_found_witness :
    createOrder sampleSt 1 100 ([⟨1, 2⟩] ++ ⟨3, 1⟩ :: []) =
      (sampleSt, .error .bookNotFound) ∧
    ∃ e, createOrder sampleSt 1 100 [⟨3, 1⟩, ⟨1, 2⟩] = (sampleSt, .error e) := by
  have hpre : processItems (nextOrderId sampleSt) sampleSt.books [⟨1, 2⟩]
      = .ok ([⟨1, "A", "a", 10, 8, 3, 9⟩, bookB], 16, [⟨0, 1, 1, 2, 8⟩]) := by
    norm_num [processItems, sampleSt, bookA, bookB, updateBook, nextOrderId, maxOrderId]
  exact ⟨(createOrder_book_not_found sampleSt 1 100).1 [⟨1, 2⟩] [] ⟨3, 1⟩
      hpre (by decide),
    (createOrder_book_not_found sampleSt 1 100).2 [⟨3, 1⟩, ⟨1, 2⟩]
      ⟨⟨3, 1⟩, by decide, by decide⟩⟩

end Bookstore

namespace Bookstore

/-- C2: for every committed order placement, the `total_amount` stored on the
new order row equals the sum of `price * quantity` over that order's
order-item rows. -/
theorem createOrder_total_eq_item_sum (st : DBState) (cid now : Nat)
    (items : List CartItem) (oid : Nat)
    (hwf : wfState st)
    (h : (createOrder st cid now items).2 = .ok oid) :
    ∃ o, (createOrder st cid now items).1.orders.find? (fun x => x.id = oid) = some o ∧
      o.total_amount = orderTotalFromItems (createOrder st cid now items).1.orderItems oid := by
  obtain ⟨rfl, bs, t, its, hp, hst⟩ := createOrder_ok_inv h
  rw [hst]
  refine ⟨⟨nextOrderId st, cid, t, now⟩, ?_, ?_⟩
  · show (st.orders ++ [(⟨nextOrderId st, cid, t, now⟩ : Order)]).find?
        (fun x => x.id = (⟨nextOrderId st, cid, t, now⟩ : Order).id)
      = some ⟨nextOrderId st, cid, t, now⟩
    apply find?_orders_append_new
    intro o' ho'
    have := mem_le_maxOrderId ho'
    show o'.id < nextOrderId st
    unfold nextOrderId
    omega
  · show t = orderTotalFromItems
      (st.orderItems ++ assignIds (maxItemId st.orderItems + 1) its) (nextOrderId st)
    unfold orderTotalFromItems
    rw [List.filter_append]
    have hold : st.orderItems.filter (fun it => it.order_id = nextOrderId st) = [] :=
      List.filter_eq_nil_iff.mpr (by
        intro it hit
        simpa using old_items_not_new hwf it hit)
    rw [hold, List.nil_append]
    rw [assignIds_filter_map (fun it => it.order_id = nextOrderId st)
      (fun it => it.price * (it.quantity : ℚ)) (fun it n => rfl) (fun it n => rfl)]
    have hall : its.filter (fun it => it.order_id = nextOrderId st) = its :=
      List.filter_eq_self.mpr (by
        intro it hit
        simpa using processItems_ok_orderId hp it hit)
    rw [hall]
    exact processItems_ok_total hp

theorem createOrder_total_eq_item_sum_witness :
    wfState sampleSt ∧
    (createOrder sampleSt 1 100 [⟨1, 3⟩, ⟨2, 2⟩]).2 = .ok 1 ∧
    ∃ o, (createOrder sampleSt 1 100 [⟨1, 3⟩, ⟨2, 2⟩]).1.orders.find?
          (fun x => x.id = 1) = some o ∧
      o.total_amount = orderTotalFromItems
        (createOrder sampleSt 1 100 [⟨1, 3⟩, ⟨2, 2⟩]).1.orderItems 1 := by
  have hwf : wfState sampleSt := by decide
  have h : (createOrder sampleSt 1 100 [⟨1, 3⟩, ⟨2, 2⟩]).2 = .ok 1 := by
    norm_num [createOrder, processItems, sampleSt, bookA, bookB, updateBook,
      nextOrderId, maxOrderId]
  exact ⟨hwf, h, createOrder_total_eq_item_sum sampleSt 1 100 [⟨1, 3⟩, ⟨2, 2⟩] 1 hwf h⟩

/-- C3: a committed order placement updates exactly the books the cart
references — each loses `stock` and gains `sales_count` by precisely the
total quantity the cart orders for it, so a book on no cart line is
unchanged — and beyond the book table the operation only appends the one
order row and its order-item rows: customers are untouched. -/
theorem createOrder_book_frame (st : DBState) (cid now : Nat)
    (items : List CartItem) (oid : Nat)
    (hnd : (st.books.map Book.id).Nodup)
    (h : (createOrder st cid now items).2 = .ok oid) :
    (createOrder st cid now items).1.books
        = st.books.map (fun b =>
            { b with stock := b.stock - cartQty items b.id,
                     sales_count := b.sales_count + cartQty items b.id }) ∧
    (∀ b ∈ st.books, (∀ i ∈ items, ¬ i.id = b.id) →
        ({ b with stock := b.stock - cartQty items b.id,
                  sales_count := b.sales_count + cartQty items b.id } : Book) = b) ∧
    (createOrder st cid now items).1.customers = st.customers ∧
    (∃ o, (createOrder st cid now items).1.orders = st.orders ++ [o]) ∧
    (∃ newIts, (createOrder st cid now items).1.orderItems
        = st.orderItems ++ newIts) := by
  obtain ⟨rfl, bs, t, its, hp, hst⟩ := createOrder_ok_inv h
  rw [hst]
  refine ⟨processItems_ok_books hnd hp, ?_, rfl, ⟨_, rfl⟩, ⟨_, rfl⟩⟩
  intro b _ hnotin
  rw [cartQty_eq_zero hnotin]
  simp

theorem createOrder_book_frame_witness :
    (sampleSt.books.map Book.id).Nodup ∧
    (createOrder sampleSt 1 100 [⟨1, 3⟩]).2 = .ok 1 ∧
    (createOrder sampleSt 1 100 [⟨1, 3⟩]).1.books
        = sampleSt.books.map (fun b =>
            { b with stock := b.stock - cartQty [⟨1, 3⟩] b.id,
                     sales_count := b.sales_count + cartQty [⟨1, 3⟩] b.id }) ∧
    (createOrder sampleSt 1 100 [⟨1, 3⟩]).1.customers = sampleSt.customers := by
  have hnd : (sampleSt.books.map Book.id).Nodup := by decide
  have h : (createOrder sampleSt 1 100 [⟨1, 3⟩]).2 = .ok 1 := by
    norm_num [createOrder, processItems, sampleSt, bookA, bookB, updateBook,
      nextOrderId, maxOrderId]
  obtain ⟨h1, -, h3, -, -⟩ :=
    createOrder_book_frame sampleSt 1 100 [⟨1, 3⟩] 1 hnd h
  exact ⟨hnd, h, h1, h3⟩

/-- C7: on a committed placement every created order-item row freezes as its
`price` the referenced book's `sale_price` as it stood in the pre-placement
catalog; the placement itself never changes any book's `sale_price`; and no
later operation of the application (`create_order` or `register`) rewrites
existing order-item rows, so the frozen prices survive any later catalog
state. -/
theorem createOrder_frozen_unit_price (st : DBState) (cid now : Nat)
    (items : List CartItem) (oid : Nat)
    (h : (createOrder st cid now items).2 = .ok oid) :
    (∃ newIts, (createOrder st cid now items).1.orderItems = st.orderItems ++ newIts ∧
        ∀ it ∈ newIts, it.order_id = oid ∧
          salePriceOf st.books it.book_id = some it.price) ∧
    (∀ x, salePriceOf (createOrder st cid now items).1.books x
        = salePriceOf st.books x) ∧
    (∀ cid2 now2 items2, ∃ tail,
        (createOrder (createOrder st cid now items).1 cid2 now2 items2).1.orderItems
          = (createOrder st cid now items).1.orderItems ++ tail) ∧
    (∀ u pw, (register (createOrder st cid now items).1 u pw).1.orderItems
        = (createOrder st cid now items).1.orderItems) := by
  obtain ⟨rfl, bs, t, its, hp, hst⟩ := createOrder_ok_inv h
  refine ⟨?_, ?_, ?_, ?_⟩
  · rw [hst]
    refine ⟨assignIds (maxItemId st.orderItems + 1) its, rfl, ?_⟩
    intro it' hit'
    obtain ⟨it, hit, hoid, hbid, hq, hpr⟩ := assignIds_mem hit'
    obtain ⟨hsp, -⟩ := processItems_ok_price hp it hit
    refine ⟨?_, ?_⟩
    · rw [hoid]
      exact processItems_ok_orderId hp it hit
    · rw [hbid, hpr]
      exact hsp
  · rw [hst]
    exact processItems_ok_salePrice hp
  · intro cid2 now2 items2
    exact createOrder_orderItems_extend _ cid2 now2 items2
  · intro u pw
    unfold register
    split
    · rfl
    · rfl

theorem createOrder_frozen_unit_price_witness :
    (createOrder sampleSt 1 100 [⟨1, 3⟩]).2 = .ok 1 ∧
    (∃ newIts, (createOrder sampleSt 1 100 [⟨1, 3⟩]).1.orderItems
          = sampleSt.orderItems ++ newIts ∧
        ∀ it ∈ newIts, it.order_id = 1 ∧
          salePriceOf sampleSt.books it.book_id = some it.price) ∧
    (∀ x, salePriceOf (createOrder sampleSt 1 100 [⟨1, 3⟩]).1.books x
        = salePriceOf sampleSt.books x) := by
  have h : (createOrder sampleSt 1 100 [⟨1, 3⟩]).2 = .ok 1 := by
    norm_num [createOrder, processItems, sampleSt, bookA, bookB, updateBook,
      nextOrderId, maxOrderId]
  obtain ⟨h1, h2, -, -⟩ := createOrder_frozen_unit_price sampleSt 1 100 [⟨1, 3⟩] 1 h
  exact ⟨h, h1, h2⟩

end Bookstore

namespace Bookstore

/-- C6 (amended): every operation keeps every book's stock non-negative —
the stock check guarantees it for any integer quantity — and, provided all
submitted quantities are non-negative, a committed placement never decreases
any book's sales count (`register` touches neither books nor order items).
The unconditional monotonicity the spec states fails for negative
quantities, which the handler does not reject. -/
theorem operations_preserve_stock_nonneg :
    (∀ (st : DBState) (cid now : Nat) (items : List CartItem),
      (∀ b ∈ st.books, 0 ≤ b.stock) →
      ((∀ b ∈ (createOrder st cid now items).1.books, 0 ≤ b.stock) ∧
       ((∀ i ∈ items, 0 ≤ i.qty) →
         ∀ b' ∈ (createOrder st cid now items).1.books,
           ∃ b ∈ st.books, b'.id = b.id ∧ b.sales_count ≤ b'.sales_count))) ∧
    (∀ (st : DBState) (u pw : String),
      (register st u pw).1.books = st.books ∧
      (register st u pw).1.orderItems = st.orderItems) := by
  constructor
  · intro st cid now items hstock
    cases hr : (createOrder st cid now items).2 with
    | error e =>
      rw [createOrder_error_inv hr]
      exact ⟨hstock, fun _ b' hb' => ⟨b', hb', rfl, le_refl _⟩⟩
    | ok oid =>
      obtain ⟨-, bs, t, its, hp, hst⟩ := createOrder_ok_inv hr
      rw [hst]
      exact ⟨processItems_ok_stock_nonneg hstock hp,
        fun hq => processItems_ok_sales_mono hq hp⟩
  · intro st u pw
    unfold register
    split
    · exact ⟨rfl, rfl⟩
    · exact ⟨rfl, rfl⟩

theorem operations_preserve_stock_nonneg_witness :
    (∀ b ∈ sampleSt.books, 0 ≤ b.stock) ∧
    (∀ b ∈ (createOrder sampleSt 1 100 [⟨1, 3⟩]).1.books, 0 ≤ b.stock) ∧
    (∀ b' ∈ (createOrder sampleSt 1 100 [⟨1, 3⟩]).1.books,
      ∃ b ∈ sampleSt.books, b'.id = b.id ∧ b.sales_count ≤ b'.sales_count) := by
  have hstock : ∀ b ∈ sampleSt.books, 0 ≤ b.stock := by decide
  obtain ⟨h1, h2⟩ :=
    operations_preserve_stock_nonneg.1 sampleSt 1 100 [⟨1, 3⟩] hstock
  exact ⟨hstock, h1, h2 (by decide)⟩

/-- C6 (counterexample): sales counts are not monotone across committed
states.  With book 1 at `sales_count = 7`, the cart `[{id: 1, qty: -1}]`
commits successfully and leaves the book at `sales_count = 6`. -/
theorem salesCount_decreases_on_committed_negative_qty :
    (createOrder sampleSt 1 100 [⟨1, -1⟩]).2 = .ok 1 ∧
    ((createOrder sampleSt 1 100 [⟨1, -1⟩]).1.books.find? (fun b => b.id = 1)).map
        (fun b => b.sales_count) = some 6 ∧
    (sampleSt.books.find? (fun b => b.id = 1)).map (fun b => b.sales_count)
        = some 7 ∧
    ¬ (7 : Int) ≤ 6 := by
  refine ⟨?_, ?_, by decide, by decide⟩
  · norm_num [createOrder, processItems, sampleSt, bookA, bookB, updateBook,
      nextOrderId, maxOrderId]
  · norm_num [createOrder, processItems, sampleSt, bookA, bookB, updateBook,
      nextOrderId, maxOrderId, maxItemId, assignIds]

/-- C8: `my_orders` returns exactly the requesting customer's order rows
(a permutation of the table filtered on `customer_id`), sorted
newest-first by `created_at`, and — being a pure read of the committed
state — two calls with no intervening writes return identical results. -/
theorem myOrders_exact_sorted_idempotent (st : DBState) (cid : Nat) :
    myOrders st cid = myOrders st cid ∧
    (myOrders st cid).Perm (st.orders.filter (fun o => o.customer_id = cid)) ∧
    (myOrders st cid).Pairwise (fun a b => b.created_at ≤ a.created_at) := by
  refine ⟨rfl, ?_, ?_⟩
  · exact List.mergeSort_perm _ _
  · unfold myOrders
    refine List.Pairwise.imp ?_
      (List.sorted_mergeSort ?_ ?_ (st.orders.filter (fun o => o.customer_id = cid)))
    · intro a b hab
      simpa using hab
    · intro a b c h1 h2
      simp only [decide_eq_true_eq] at h1 h2 ⊢
      omega
    · intro a b
      simp only [Bool.or_eq_true, decide_eq_true_eq]
      omega

/-- C9 (amended): a committed placement creates exactly one order-item row
per cart line, so an order committed from a non-empty cart owns at least one
order item; but the handler accepts an empty cart and then commits an order
owning zero order items (see the counterexample). -/
theorem createOrder_item_count (st : DBState) (cid now : Nat)
    (items : List CartItem) (oid : Nat)
    (hwf : wfState st)
    (h : (createOrder st cid now items).2 = .ok oid) :
    ((createOrder st cid now items).1.orderItems.filter
        (fun it => it.order_id = oid)).length = items.length ∧
    (items ≠ [] →
      1 ≤ ((createOrder st cid now items).1.orderItems.filter
          (fun it => it.order_id = oid)).length) := by
  obtain ⟨rfl, bs, t, its, hp, hst⟩ := createOrder_ok_inv h
  have hold : st.orderItems.filter (fun it => it.order_id = nextOrderId st) = [] :=
    List.filter_eq_nil_iff.mpr (by
      intro it hit
      simpa using old_items_not_new hwf it hit)
  have hcount : ((st.orderItems ++ assignIds (maxItemId st.orderItems + 1) its).filter
      (fun it => it.order_id = nextOrderId st)).length = items.length := by
    rw [List.filter_append, hold, List.nil_append]
    have hmap := assignIds_filter_map (fun it => it.order_id = nextOrderId st)
        (fun _ => (0 : Nat)) (fun it n => rfl) (fun it n => rfl)
        (maxItemId st.orderItems + 1) its
    have hlen := congrArg List.length hmap
    rw [List.length_map, List.length_map] at hlen
    have hall : its.filter (fun it => it.order_id = nextOrderId st) = its :=
      List.filter_eq_self.mpr (by
        intro it hit
        simpa using processItems_ok_orderId hp it hit)
    rw [hlen, hall]
    exact processItems_ok_length hp
  rw [hst]
  refine ⟨hcount, fun hne => ?_⟩
  show 1 ≤ ((st.orderItems ++ assignIds (maxItemId st.orderItems + 1) its).filter
      (fun it => it.order_id = nextOrderId st)).length
  rw [hcount]
  exact List.length_pos.mpr hne

theorem createOrder_item_count_witness :
    wfState sampleSt ∧
    (createOrder sampleSt 1 100 [⟨1, 3⟩, ⟨2, 2⟩]).2 = .ok 1 ∧
    ([(⟨1, 3⟩ : CartItem), ⟨2, 2⟩] ≠ []) ∧
    ((createOrder sampleSt 1 100 [⟨1, 3⟩, ⟨2, 2⟩]).1.orderItems.filter
        (fun it => it.order_id = 1)).length = 2 ∧
    1 ≤ ((createOrder sampleSt 1 100 [⟨1, 3⟩, ⟨2, 2⟩]).1.orderItems.filter
        (fun it => it.order_id = 1)).length := by
  have hwf : wfState sampleSt := by decide
  have h : (createOrder sampleSt 1 100 [⟨1, 3⟩, ⟨2, 2⟩]).2 = .ok 1 := by
    norm_num [createOrder, processItems, sampleSt, bookA, bookB, updateBook,
      nextOrderId, maxOrderId]
  obtain ⟨h1, h2⟩ :=
    createOrder_item_count sampleSt 1 100 [⟨1, 3⟩, ⟨2, 2⟩] 1 hwf h
  exact ⟨hwf, h, by decide, h1, h2 (by decide)⟩

/-- C9 (counterexample): submitting an empty cart succeeds and commits an
order row that owns no order-item row. -/
theorem createOrder_empty_cart_commits_empty_order :
    (createOrder sampleSt 1 100 []).2 = .ok 1 ∧
    (createOrder sampleSt 1 100 []).1.orders
        = sampleSt.orders ++ [⟨1, 1, 0, 100⟩] ∧
    ((createOrder sampleSt 1 100 []).1.orderItems.filter
        (fun it => it.order_id = 1)).length = 0 :=
  ⟨rfl, rfl, rfl⟩

/-- C10: the handler validates no positivity of quantities.  For a cart line
with a negative quantity on an existing book (non-negative stock, positive
sale price), the stock check passes, the order commits, the book's stock
increases by `|qty|`, its sales count decreases by `|qty|`, and the line
contributes the negative amount `sale_price * qty` to the order total. -/
theorem createOrder_negative_qty (st : DBState) (cid now : Nat)
    (i : CartItem) (b : Book)
    (hfind : st.books.find? (fun x => x.id = i.id) = some b)
    (hneg : i.qty < 0) (hstock : 0 ≤ b.stock) (hprice : 0 < b.sale_price) :
    (createOrder st cid now [i]).2 = .ok (nextOrderId st) ∧
    (createOrder st cid now [i]).1.books.find? (fun x => x.id = i.id)
        = some { b with stock := b.stock + |i.qty|,
                        sales_count := b.sales_count - |i.qty| } ∧
    (∃ o, (createOrder st cid now [i]).1.orders = st.orders ++ [o] ∧
        o.total_amount = b.sale_price * (i.qty : ℚ) ∧ o.total_amount < 0) := by
  have hle : ¬ b.stock < i.qty := by omega
  have hp : processItems (nextOrderId st) st.books [i]
      = .ok (updateBook st.books
          { b with stock := b.stock - i.qty, sales_count := b.sales_count + i.qty },
        b.sale_price * (i.qty : ℚ) + 0,
        [⟨0, nextOrderId st, b.id, i.qty, b.sale_price⟩]) := by
    rw [processItems]
    simp only [hfind]
    rw [if_neg hle]
    rfl
  have hq : (i.qty : ℚ) < 0 := by exact_mod_cast hneg
  unfold createOrder
  rw [hp]
  refine ⟨rfl, ?_,
    ⟨⟨nextOrderId st, cid, b.sale_price * (i.qty : ℚ) + 0, now⟩, rfl, ?_, ?_⟩⟩
  · show (updateBook st.books
        { b with stock := b.stock - i.qty, sales_count := b.sales_count + i.qty }).find?
        (fun x => x.id = i.id) = _
    rw [find?_updateBook, hfind]
    rw [abs_of_neg hneg]
    simp only [Option.map_some']
    split
    · refine congrArg some ?_
      simp only [Book.mk.injEq, true_and]
      omega
    · rename_i hcond
      exact absurd trivial hcond
  · show b.sale_price * (i.qty : ℚ) + 0 = b.sale_price * (i.qty : ℚ)
    exact add_zero _
  · show b.sale_price * (i.qty : ℚ) + 0 < 0
    have := mul_neg_of_pos_of_neg hprice hq
    linarith

theorem createOrder_negative_qty_witness :
    sampleSt.books.find? (fun x => x.id = (⟨1, -2⟩ : CartItem).id) = some bookA ∧
    ((⟨1, -2⟩ : CartItem).qty < 0) ∧ (0 ≤ bookA.stock) ∧ ((0 : ℚ) < bookA.sale_price) ∧
    (createOrder sampleSt 1 100 [⟨1, -2⟩]).2 = .ok (nextOrderId sampleSt) ∧
    (createOrder sampleSt 1 100 [⟨1, -2⟩]).1.books.find?
        (fun x => x.id = (⟨1, -2⟩ : CartItem).id)
      = some { bookA with stock := bookA.stock + |(⟨1, -2⟩ : CartItem).qty|,
                          sales_count := bookA.sales_count - |(⟨1, -2⟩ : CartItem).qty| } := by
  have hfind : sampleSt.books.find? (fun x => x.id = (⟨1, -2⟩ : CartItem).id)
      = some bookA := by decide
  obtain ⟨h1, h2, -⟩ :=
    createOrder_negative_qty sampleSt 1 100 ⟨1, -2⟩ bookA hfind
      (by decide) (by decide) (by decide)
  exact ⟨hfind, by decide, by decide, by decide, h1, h2⟩

end Bookstore
